import Mathlib

/-!
Verification of `geos::algorithm::Orientation` (src/src/algorithm/Orientation.cpp).

The file shallowly embeds `Orientation::isCCW` over exact rational coordinates:
the C++ `double` arithmetic is modelled by `ℚ`, which is faithful to the
comparisons and subtractions the algorithm performs on finite inputs, and to the
extended-precision orientation predicate whose contract is an exact sign.

The ring is a `List Coordinate`; indexed access `getAt`/`getY` mirrors
`CoordinateSequence::getAt`/`getY`.  The landmark scan (lines 63-81 of the
source) is structural recursion on the loop counter; the `do`-`while` search for
the falling point (lines 92-95) is fueled recursion whose fuel exhaustion
models divergence of the C++ loop.
-/

/-- A 2D coordinate.  `equals2D` in the source compares exactly the `x` and `y`
fields, so structural equality of this record is exactly `equals2D`. -/
structure Coordinate where
  x : ℚ
  y : ℚ
deriving DecidableEq, Repr

/-- `CoordinateSequence::getAt`: indexed access into the ring.  All accesses the
algorithm performs are in range; the default is irrelevant padding. -/
def getAt (ring : List Coordinate) (i : Nat) : Coordinate :=
  ring.getD i ⟨0, 0⟩

/-- `CoordinateSequence::getY`. -/
def getY (ring : List Coordinate) (i : Nat) : ℚ :=
  (getAt ring i).y

/-- Modelled from the spec: the constant `Orientation::COUNTERCLOCKWISE`
lives in `Orientation.h`, which is not part of the sources; the spec fixes the
encoding counter-clockwise = +1. -/
def counterclockwise : Int := 1

/-- Modelled from the spec: `CGAlgorithmsDD::orientationIndex` is an external
collaborator not in the sources; the spec (section 4.1) specifies it as the exact
sign of the cross product (p2 - p1) x (q - p1), which is computed here exactly
over `ℚ`. -/
def orientationIndex (p1 p2 q : Coordinate) : Int :=
  let cross : ℚ := (p2.x - p1.x) * (q.y - p1.y) - (p2.y - p1.y) * (q.x - p1.x)
  if 0 < cross then 1 else if cross < 0 then -1 else 0

/-- `Orientation::index` delegates to the orientation predicate. -/
def index (p1 p2 q : Coordinate) : Int :=
  orientationIndex p1 p2 q

/-- The locals of the landmark scan loop (source lines 63-81).  `upLowPt` is an
`Option` because the C++ initialises it to the null (NaN) sentinel via
`setNull()` before the loop. -/
structure ScanState where
  upHiPt : Coordinate
  prevY : ℚ
  upLowPt : Option Coordinate
  iUpHi : Nat
deriving DecidableEq, Repr

/-- One iteration of the scan loop at index `i` (source lines 70-81):
if the segment into `i` is upward and its endpoint reaches a new running
maximum, record the endpoint, its index, and the preceding point. -/
def scanStep (ring : List Coordinate) (s : ScanState) (i : Nat) : ScanState :=
  let py := getY ring i
  if py > s.prevY ∧ py ≥ s.upHiPt.y then
    { upHiPt := getAt ring i, prevY := py,
      upLowPt := some (getAt ring (i - 1)), iUpHi := i }
  else
    { s with prevY := py }

/-- The scan loop's initial state (source lines 63-69). -/
def scanInit (ring : List Coordinate) : ScanState :=
  { upHiPt := getAt ring 0, prevY := (getAt ring 0).y,
    upLowPt := none, iUpHi := 0 }

/-- State of the scan after processing indices `1 .. n`. -/
def scanUpTo (ring : List Coordinate) : Nat → ScanState
  | 0 => scanInit ring
  | n + 1 => scanStep ring (scanUpTo ring n) (n + 1)

/-- Number of points without the closing endpoint (`nPts` in the source). -/
def nPtsOf (ring : List Coordinate) : Nat :=
  ring.length - 1

/-- The full scan, `for (i = 1; i <= nPts; i++)`. -/
def scanOf (ring : List Coordinate) : ScanState :=
  scanUpTo ring (nPtsOf ring)

def upHiPtOf (ring : List Coordinate) : Coordinate :=
  (scanOf ring).upHiPt

def upLowPtOf (ring : List Coordinate) : Option Coordinate :=
  (scanOf ring).upLowPt

def iUpHiOf (ring : List Coordinate) : Nat :=
  (scanOf ring).iUpHi

/-- The `do`-`while` search for the falling point (source lines 92-95), as
fueled recursion: one fuel unit per loop iteration; `none` models the C++
loop failing to terminate within the given budget. -/
def findDownLowAux (ring : List Coordinate) (nPts iUpHi : Nat) (hy : ℚ) :
    Nat → Nat → Option Nat
  | 0, _ => none
  | fuel + 1, cur =>
    let nxt := (cur + 1) % nPts
    if nxt ≠ iUpHi ∧ getY ring nxt = hy then
      findDownLowAux ring nPts iUpHi hy fuel nxt
    else
      some nxt

/-- The index `iDownLow`, with fuel `nPts + 1` (the loop is proved below to
exit within `nPts` iterations whenever the scan found an upward step). -/
def iDownLowOf (ring : List Coordinate) : Option Nat :=
  findDownLowAux ring (nPtsOf ring) (iUpHiOf ring) (upHiPtOf ring).y
    (nPtsOf ring + 1) (iUpHiOf ring)

/-- `downLowPt` for a given `iDownLow` (source line 97). -/
def downLowPtAt (ring : List Coordinate) (iDownLow : Nat) : Coordinate :=
  getAt ring iDownLow

/-- `iDownHi = iDownLow > 0 ? iDownLow - 1 : nPts - 1` (source line 98). -/
def iDownHiAt (ring : List Coordinate) (iDownLow : Nat) : Nat :=
  if 0 < iDownLow then iDownLow - 1 else nPtsOf ring - 1

/-- `downHiPt` (source line 99). -/
def downHiPtAt (ring : List Coordinate) (iDownLow : Nat) : Coordinate :=
  getAt ring (iDownHiAt ring iDownLow)

/-- Result of `isCCW`: a boolean, the thrown `IllegalArgumentException`, or
divergence of the `do`-`while` loop (never reached; kept so the embedding
does not silently totalise the C++ loop). -/
inductive CCWResult where
  | ok (b : Bool)
  | invalidArgument (msg : String)
  | diverge
deriving DecidableEq, Repr

/-- The message of the length-check exception (source lines 51-52). -/
def tooFewMsg : String :=
  "Ring has fewer than 4 points, so orientation cannot be determined"

/-- `Orientation::isCCW` (source lines 44-135). -/
def isCCW (ring : List Coordinate) : CCWResult :=
  if (ring.length : Int) - 1 < 3 then
    CCWResult.invalidArgument tooFewMsg
  else if iUpHiOf ring = 0 then
    CCWResult.ok false
  else
    match iDownLowOf ring with
    | none => CCWResult.diverge
    | some iDownLow =>
      if upHiPtOf ring = downHiPtAt ring iDownLow then
        match upLowPtOf ring with
        | none =>
          -- Unreachable: the scan invariant below shows `upLowPt` is set
          -- whenever `iUpHi ≠ 0`.  In C++ this state would read the null
          -- (NaN) sentinel, which `equals2D` never matches.
          CCWResult.ok false
        | some upLowPt =>
          if upLowPt = upHiPtOf ring ∨ downLowPtAt ring iDownLow = upHiPtOf ring ∨
              upLowPt = downLowPtAt ring iDownLow then
            CCWResult.ok false
          else
            CCWResult.ok (decide (index upLowPt (upHiPtOf ring)
              (downLowPtAt ring iDownLow) = counterclockwise))
      else
        CCWResult.ok (decide ((downHiPtAt ring iDownLow).x - (upHiPtOf ring).x < 0))

/-- Invariant of the landmark scan: `prevY` tracks the y-coordinate of the last
processed index, and either no qualifying upward step was found (`iUpHi` still
`0`, `upLowPt` still the null sentinel, `upHiPt` still the start point) or
`iUpHi` records the index of a genuine upward step, with `upHiPt` and
`upLowPt` the points at `iUpHi` and `iUpHi - 1` and a strict rise between
them. -/
lemma scanUpTo_invariant (ring : List Coordinate) (n : Nat) :
    (scanUpTo ring n).prevY = getY ring n ∧
    (((scanUpTo ring n).iUpHi = 0 ∧ (scanUpTo ring n).upLowPt = none ∧
        (scanUpTo ring n).upHiPt = getAt ring 0) ∨
      (1 ≤ (scanUpTo ring n).iUpHi ∧ (scanUpTo ring n).iUpHi ≤ n ∧
        (scanUpTo ring n).upHiPt = getAt ring ((scanUpTo ring n).iUpHi) ∧
        (scanUpTo ring n).upLowPt =
          some (getAt ring ((scanUpTo ring n).iUpHi - 1)) ∧
        getY ring ((scanUpTo ring n).iUpHi - 1) <
          getY ring ((scanUpTo ring n).iUpHi))) := by
  induction n with
  | zero =>
    exact ⟨rfl, Or.inl ⟨rfl, rfl, rfl⟩⟩
  | succ n ih =>
    obtain ⟨hprev, hinv⟩ := ih
    simp only [scanUpTo, scanStep]
    by_cases hc : getY ring (n + 1) > (scanUpTo ring n).prevY ∧
        getY ring (n + 1) ≥ (scanUpTo ring n).upHiPt.y
    · rw [if_pos hc]
      refine ⟨rfl, Or.inr ⟨Nat.one_le_iff_ne_zero.mpr (Nat.succ_ne_zero n),
        Nat.le_refl _, rfl, rfl, ?_⟩⟩
      have h1 := hc.1
      rw [hprev] at h1
      simpa using h1
    · rw [if_neg hc]
      refine ⟨rfl, ?_⟩
      rcases hinv with h0 | h1
      · exact Or.inl h0
      · exact Or.inr ⟨h1.1, Nat.le_succ_of_le h1.2.1, h1.2.2⟩

/-- If every y-coordinate up to `n` equals the start's, the scan records
nothing: `iUpHi` stays `0` and the state keeps its initial values. -/
lemma scanUpTo_constY (ring : List Coordinate) (n : Nat)
    (hc : ∀ i, i ≤ n → getY ring i = getY ring 0) :
    (scanUpTo ring n).iUpHi = 0 := by
  induction n with
  | zero => rfl
  | succ n ih =>
    have hc' : ∀ i, i ≤ n → getY ring i = getY ring 0 :=
      fun i hi => hc i (Nat.le_succ_of_le hi)
    have hprev := (scanUpTo_invariant ring n).1
    simp only [scanUpTo, scanStep]
    have hcond : ¬ (getY ring (n + 1) > (scanUpTo ring n).prevY ∧
        getY ring (n + 1) ≥ (scanUpTo ring n).upHiPt.y) := by
      intro h
      have := h.1
      rw [hprev, hc' n (Nat.le_refl n), hc (n + 1) (Nat.le_refl _)] at this
      exact lt_irrefl _ this
    rw [if_neg hcond]
    exact ih hc'

/-- Facts available once the scan found an upward step (`iUpHi ≠ 0`):
the index is in `1 .. nPts`, `upHiPt`/`upLowPt` are the ring points at
`iUpHi`/`iUpHi - 1`, and the step into `iUpHi` rises strictly. -/
lemma scan_found (ring : List Coordinate) (hUp : iUpHiOf ring ≠ 0) :
    1 ≤ iUpHiOf ring ∧ iUpHiOf ring ≤ nPtsOf ring ∧
    upHiPtOf ring = getAt ring (iUpHiOf ring) ∧
    upLowPtOf ring = some (getAt ring (iUpHiOf ring - 1)) ∧
    getY ring (iUpHiOf ring - 1) < getY ring (iUpHiOf ring) := by
  have h := scanUpTo_invariant ring (nPtsOf ring)
  rcases h.2 with h0 | h1
  · exact absurd h0.1 hUp
  · exact h1

/-- If some iteration count `k` (with `1 ≤ k ≤ fuel`) exits the `do`-`while`
guard, the fueled search returns a value. -/
lemma findDownLowAux_isSome (ring : List Coordinate) (nPts iUpHi : Nat)
    (hy : ℚ) :
    ∀ fuel cur k, 1 ≤ k → k ≤ fuel →
      ((cur + k) % nPts = iUpHi ∨ getY ring ((cur + k) % nPts) ≠ hy) →
      (findDownLowAux ring nPts iUpHi hy fuel cur).isSome := by
  intro fuel
  induction fuel with
  | zero => intro cur k h1 h2 _; omega
  | succ fuel ih =>
    intro cur k h1 h2 hexit
    simp only [findDownLowAux]
    by_cases hc : (cur + 1) % nPts ≠ iUpHi ∧ getY ring ((cur + 1) % nPts) = hy
    · rw [if_pos hc]
      have hk : k ≠ 1 := by
        intro h
        subst h
        rcases hexit with h | h
        · exact hc.1 h
        · exact h hc.2
      apply ih ((cur + 1) % nPts) (k - 1) (by omega) (by omega)
      have harith : ((cur + 1) % nPts + (k - 1)) % nPts = (cur + k) % nPts := by
        rw [Nat.mod_add_mod]
        congr 1
        omega
      rw [harith]
      exact hexit
    · rw [if_neg hc]
      rfl

/-- The falling-point search terminates whenever the scan found an upward
step: the point at `iUpHi - 1` lies strictly below `upHiPt` and is reached
within the fuel budget, so the loop exits. -/
lemma iDownLowOf_isSome (ring : List Coordinate) (h3 : 3 ≤ nPtsOf ring)
    (hUp : iUpHiOf ring ≠ 0) : (iDownLowOf ring).isSome := by
  obtain ⟨h1, h2, hHi, _, hlt⟩ := scan_found ring hUp
  apply findDownLowAux_isSome ring (nPtsOf ring) (iUpHiOf ring)
    (upHiPtOf ring).y (nPtsOf ring + 1) (iUpHiOf ring) (nPtsOf ring - 1)
    (by omega) (by omega)
  right
  have heq : (iUpHiOf ring + (nPtsOf ring - 1)) % nPtsOf ring =
      iUpHiOf ring - 1 := by
    have hsum : iUpHiOf ring + (nPtsOf ring - 1) =
        (iUpHiOf ring - 1) + nPtsOf ring := by omega
    rw [hsum, Nat.add_mod_right, Nat.mod_eq_of_lt (by omega)]
  rw [heq, hHi]
  exact ne_of_lt hlt

/-- The length check: `(int)size - 1 < 3` is exactly `size < 4`. -/
lemma length_check (ring : List Coordinate) :
    ((ring.length : Int) - 1 < 3) ↔ ring.length < 4 := by
  omega

/-- A ring with fewer than 4 points is rejected with the
`IllegalArgumentException` message. -/
lemma isCCW_short (ring : List Coordinate) (h : ring.length < 4) :
    isCCW ring = CCWResult.invalidArgument tooFewMsg := by
  unfold isCCW
  rw [if_pos ((length_check ring).mpr h)]

/-- A ring with at least 4 points always gets a boolean verdict: the length
check passes and the `do`-`while` search terminates, so every remaining
branch produces `CCWResult.ok`. -/
lemma isCCW_ok (ring : List Coordinate) (h4 : 4 ≤ ring.length) :
    ∃ b, isCCW ring = CCWResult.ok b := by
  have hlen : ¬ ((ring.length : Int) - 1 < 3) := by omega
  unfold isCCW
  rw [if_neg hlen]
  by_cases hUp : iUpHiOf ring = 0
  · rw [if_pos hUp]
    exact ⟨false, rfl⟩
  · rw [if_neg hUp]
    have h3 : 3 ≤ nPtsOf ring := by
      unfold nPtsOf
      omega
    obtain ⟨idl, hidl⟩ :=
      Option.isSome_iff_exists.mp (iDownLowOf_isSome ring h3 hUp)
    simp only [hidl]
    by_cases hcap : upHiPtOf ring = downHiPtAt ring idl
    · rw [if_pos hcap]
      cases hulp : upLowPtOf ring with
      | none => exact ⟨false, rfl⟩
      | some ulp =>
        dsimp only
        by_cases hdeg : ulp = upHiPtOf ring ∨
            downLowPtAt ring idl = upHiPtOf ring ∨ ulp = downLowPtAt ring idl
        · rw [if_pos hdeg]
          exact ⟨false, rfl⟩
        · rw [if_neg hdeg]
          exact ⟨_, rfl⟩
    · rw [if_neg hcap]
      exact ⟨_, rfl⟩

/-- The distinct vertices of the ring (closing endpoint excluded). -/
def distinctVerts (ring : List Coordinate) : List Coordinate :=
  (ring.take (nPtsOf ring)).dedup

/-- The unit square traversed counter-clockwise. -/
def sqCCW : List Coordinate := [⟨0, 0⟩, ⟨1, 0⟩, ⟨1, 1⟩, ⟨0, 1⟩, ⟨0, 0⟩]

/-- The unit square traversed clockwise. -/
def sqCW : List Coordinate := [⟨0, 0⟩, ⟨0, 1⟩, ⟨1, 1⟩, ⟨1, 0⟩, ⟨0, 0⟩]

/-- A clockwise triangle with a pointed cap at (1,2). -/
def triCW : List Coordinate := [⟨0, 0⟩, ⟨1, 2⟩, ⟨2, 0⟩, ⟨0, 0⟩]

/-- A counter-clockwise triangle whose apex is the third point. -/
def triCCW : List Coordinate := [⟨0, 0⟩, ⟨2, 0⟩, ⟨1, 2⟩, ⟨0, 0⟩]

/-- The spec's flat-top example ring. -/
def flatTopRing : List Coordinate :=
  [⟨0, 0⟩, ⟨2, 0⟩, ⟨2, 1⟩, ⟨1, 1⟩, ⟨0, 1⟩, ⟨0, 0⟩]

/-- A degenerate A-B-A ring: 5 points, only 2 distinct. -/
def abaRing : List Coordinate :=
  [⟨0, 0⟩, ⟨1, 1⟩, ⟨0, 0⟩, ⟨1, 1⟩, ⟨0, 0⟩]

/-- A perfectly flat ring: every point has y = 0. -/
def flatRing : List Coordinate := [⟨0, 0⟩, ⟨1, 0⟩, ⟨2, 0⟩, ⟨0, 0⟩]

/-- A ring with only 3 points in total. -/
def shortRing : List Coordinate := [⟨0, 0⟩, ⟨1, 0⟩, ⟨0, 0⟩]

/-- A closed ring whose upward step lands on the closing point, so the scan
ends with `iUpHi = nPts`. -/
def peakLastRing : List Coordinate := [⟨0, 1⟩, ⟨1, 0⟩, ⟨2, 0⟩, ⟨0, 1⟩]

/-- C1: for a ring with at least 4 points that is not flat, when the landmark
search yields `upHiPt` structurally equal to `downHiPt` (pointed cap) and none
of the degeneracy conditions hold, `isCCW` returns true exactly when
`index(upLowPt, upHiPt, downLowPt)` is COUNTERCLOCKWISE (+1). -/
theorem isCCW_pointedCap_iff (ring : List Coordinate) (h4 : 4 ≤ ring.length)
    (hUp : iUpHiOf ring ≠ 0) (idl : Nat) (hFind : iDownLowOf ring = some idl)
    (ulp : Coordinate) (hULP : upLowPtOf ring = some ulp)
    (hCap : upHiPtOf ring = downHiPtAt ring idl)
    (hd1 : ulp ≠ upHiPtOf ring) (hd2 : downLowPtAt ring idl ≠ upHiPtOf ring)
    (hd3 : ulp ≠ downLowPtAt ring idl) :
    isCCW ring = CCWResult.ok true ↔
      index ulp (upHiPtOf ring) (downLowPtAt ring idl) = counterclockwise := by
  have hlen : ¬ ((ring.length : Int) - 1 < 3) := by omega
  unfold isCCW
  rw [if_neg hlen, if_neg hUp]
  simp only [hFind, hULP]
  rw [if_pos hCap]
  rw [if_neg (by tauto)]
  simp [decide_eq_true_eq]

/-- Concrete instance of C1 at the clockwise triangle `triCW`. -/
theorem isCCW_pointedCap_iff_witness :
    isCCW triCW = CCWResult.ok true ↔
      index ⟨0, 0⟩ (upHiPtOf triCW) (downLowPtAt triCW 2) = counterclockwise :=
  isCCW_pointedCap_iff triCW (by decide) (by with_unfolding_all decide) 2
    (by with_unfolding_all decide) ⟨0, 0⟩ (by with_unfolding_all decide)
    (by with_unfolding_all decide) (by with_unfolding_all decide)
    (by with_unfolding_all decide) (by with_unfolding_all decide)

/-- C2: for a ring with at least 4 points that is not flat, when `upHiPt`
differs from `downHiPt` (flat cap), the result is exactly the sign test
`downHiPt.x - upHiPt.x < 0`; no orientation-index call is involved. -/
theorem isCCW_flatCap (ring : List Coordinate) (h4 : 4 ≤ ring.length)
    (hUp : iUpHiOf ring ≠ 0) (idl : Nat) (hFind : iDownLowOf ring = some idl)
    (hCap : upHiPtOf ring ≠ downHiPtAt ring idl) :
    isCCW ring =
      CCWResult.ok (decide ((downHiPtAt ring idl).x - (upHiPtOf ring).x < 0)) := by
  have hlen : ¬ ((ring.length : Int) - 1 < 3) := by omega
  unfold isCCW
  rw [if_neg hlen, if_neg hUp]
  simp only [hFind]
  rw [if_neg hCap]

/-- Concrete instance of C2 at the spec's flat-top ring. -/
theorem isCCW_flatCap_witness :
    isCCW flatTopRing =
      CCWResult.ok
        (decide ((downHiPtAt flatTopRing 0).x - (upHiPtOf flatTopRing).x < 0)) :=
  isCCW_flatCap flatTopRing (by decide) (by with_unfolding_all decide) 0
    (by with_unfolding_all decide) (by with_unfolding_all decide)

/-- C3: a ring with at least 4 points whose scan finds no qualifying upward
step (`iUpHi` stays 0) yields `false` with no error; in particular any ring
whose points all share the start's y-coordinate does. -/
theorem isCCW_flat (ring : List Coordinate) (h4 : 4 ≤ ring.length) :
    (iUpHiOf ring = 0 → isCCW ring = CCWResult.ok false) ∧
    ((∀ i, i ≤ nPtsOf ring → getY ring i = getY ring 0) →
      isCCW ring = CCWResult.ok false) := by
  have hlen : ¬ ((ring.length : Int) - 1 < 3) := by omega
  constructor
  · intro hUp
    unfold isCCW
    rw [if_neg hlen, if_pos hUp]
  · intro hc
    have hUp : iUpHiOf ring = 0 := scanUpTo_constY ring (nPtsOf ring) hc
    unfold isCCW
    rw [if_neg hlen, if_pos hUp]

/-- Concrete instance of C3 at the all-flat ring. -/
theorem isCCW_flat_witness : isCCW flatRing = CCWResult.ok false :=
  (isCCW_flat flatRing (by decide)).2
    (by
      intro i hi
      have hi3 : i ≤ 3 := hi
      interval_cases i <;> rfl)

/-- C4: the `InvalidArgument` rejection happens exactly for rings with fewer
than 4 points; a ring with at least 4 points always receives a boolean. -/
theorem isCCW_invalidArg_iff_short (ring : List Coordinate) :
    (ring.length < 4 → isCCW ring = CCWResult.invalidArgument tooFewMsg) ∧
    (4 ≤ ring.length → ∃ b, isCCW ring = CCWResult.ok b) :=
  ⟨fun h => isCCW_short ring h, fun h => isCCW_ok ring h⟩

/-- Concrete instance of C4: the 3-point ring is rejected, the 5-point square
gets a boolean. -/
theorem isCCW_invalidArg_iff_short_witness :
    isCCW shortRing = CCWResult.invalidArgument tooFewMsg ∧
    ∃ b, isCCW sqCCW = CCWResult.ok b :=
  ⟨(isCCW_invalidArg_iff_short shortRing).1 (by decide),
   (isCCW_invalidArg_iff_short sqCCW).2 (by decide)⟩

/-- C5 fails as stated: `abaRing` has 5 points but only 2 distinct vertices,
yet `isCCW` returns `false` instead of signalling an error. -/
theorem fewDistinct_no_error_counterexample :
    4 ≤ abaRing.length ∧ (distinctVerts abaRing).length < 3 ∧
    isCCW abaRing = CCWResult.ok false := by
  with_unfolding_all decide

/-- C5 (amended): only rings with fewer than 4 total points signal an error;
a ring with at least 4 total points but fewer than 3 distinct vertices is not
rejected and instead receives a boolean verdict. -/
theorem isCCW_fewDistinct (ring : List Coordinate) :
    (ring.length < 4 → isCCW ring = CCWResult.invalidArgument tooFewMsg) ∧
    (4 ≤ ring.length → (distinctVerts ring).length < 3 →
      ∃ b, isCCW ring = CCWResult.ok b) :=
  ⟨fun h => isCCW_short ring h, fun h4 _ => isCCW_ok ring h4⟩

/-- Concrete instance of the amended C5. -/
theorem isCCW_fewDistinct_witness :
    isCCW shortRing = CCWResult.invalidArgument tooFewMsg ∧
    ∃ b, isCCW abaRing = CCWResult.ok b :=
  ⟨(isCCW_fewDistinct shortRing).1 (by decide),
   (isCCW_fewDistinct abaRing).2 (by decide) (by with_unfolding_all decide)⟩

/-- C6: in the pointed-cap case, any of the three A-B-A degeneracy conditions
makes `isCCW` return `false` without error. -/
theorem isCCW_degenerateCap (ring : List Coordinate) (h4 : 4 ≤ ring.length)
    (hUp : iUpHiOf ring ≠ 0) (idl : Nat) (hFind : iDownLowOf ring = some idl)
    (ulp : Coordinate) (hULP : upLowPtOf ring = some ulp)
    (hCap : upHiPtOf ring = downHiPtAt ring idl)
    (hdeg : ulp = upHiPtOf ring ∨ downLowPtAt ring idl = upHiPtOf ring ∨
      ulp = downLowPtAt ring idl) :
    isCCW ring = CCWResult.ok false := by
  have hlen : ¬ ((ring.length : Int) - 1 < 3) := by omega
  unfold isCCW
  rw [if_neg hlen, if_neg hUp]
  simp only [hFind, hULP]
  rw [if_pos hCap]
  rw [if_pos hdeg]

/-- Concrete instance of C6 at the A-B-A ring. -/
theorem isCCW_degenerateCap_witness : isCCW abaRing = CCWResult.ok false :=
  isCCW_degenerateCap abaRing (by decide) (by with_unfolding_all decide) 0
    (by with_unfolding_all decide) ⟨0, 0⟩ (by with_unfolding_all decide)
    (by with_unfolding_all decide)
    (Or.inr (Or.inr (by with_unfolding_all decide)))

/-- C7: the unit square is CCW in its standard traversal and not CCW in the
reverse traversal. -/
theorem isCCW_unitSquares :
    isCCW sqCCW = CCWResult.ok true ∧ isCCW sqCW = CCWResult.ok false := by
  with_unfolding_all decide

/-- C8: for a closed ring with at least 4 points, `isCCW` terminates with a
boolean, and in particular the falling-point search returns whenever the scan
found an upward step.  (Closedness is stated as in the claim; the proof shows
termination holds for any ring of at least 4 points, because the point at
`iUpHi - 1` always exits the loop's guard within `nPts` iterations, even when
`iUpHi = nPts` and the `iDownLow != iUpHi` guard can never fire.) -/
theorem isCCW_terminating (ring : List Coordinate)
    (_hclosed : getAt ring 0 = getAt ring (ring.length - 1))
    (h4 : 4 ≤ ring.length) :
    (∃ b, isCCW ring = CCWResult.ok b) ∧
    (iUpHiOf ring ≠ 0 → (iDownLowOf ring).isSome) := by
  refine ⟨isCCW_ok ring h4, fun hUp => iDownLowOf_isSome ring ?_ hUp⟩
  unfold nPtsOf
  omega

/-- Concrete instance of C8 at a ring whose scan ends with `iUpHi = nPts`. -/
theorem isCCW_terminating_witness :
    (∃ b, isCCW peakLastRing = CCWResult.ok b) ∧
    (iUpHiOf peakLastRing ≠ 0 → (iDownLowOf peakLastRing).isSome) :=
  isCCW_terminating peakLastRing (by with_unfolding_all decide) (by decide)

/-- C9: `isCCW` is deterministic; two calls on the same ring agree.  The
embedding is a pure function of the ring alone, mirroring the C++ static
function that reads only its argument and stack locals. -/
theorem isCCW_deterministic (ring : List Coordinate) (r₁ r₂ : CCWResult)
    (h₁ : r₁ = isCCW ring) (h₂ : r₂ = isCCW ring) : r₁ = r₂ :=
  h₁.trans h₂.symm

/-- Concrete instance of C9: two evaluations at the clockwise square agree. -/
theorem isCCW_deterministic_witness : isCCW sqCW = isCCW sqCW :=
  isCCW_deterministic sqCW (isCCW sqCW) (isCCW sqCW) rfl rfl

/-- C10: whenever the scan finishes with `iUpHi ≠ 0`, the variable `upLowPt`
has been assigned from the ring (it is not the null sentinel) and lies
strictly below `upHiPt`, so the pointed-cap orientation test never reads the
unset sentinel. -/
theorem scan_upLowPt_assigned (ring : List Coordinate)
    (_hclosed : getAt ring 0 = getAt ring (ring.length - 1))
    (_h4 : 4 ≤ ring.length) (hUp : iUpHiOf ring ≠ 0) :
    ∃ p, upLowPtOf ring = some p ∧ p.y < (upHiPtOf ring).y := by
  obtain ⟨h1, h2, hHi, hLow, hlt⟩ := scan_found ring hUp
  refine ⟨getAt ring (iUpHiOf ring - 1), hLow, ?_⟩
  rw [hHi]
  exact hlt

/-- Concrete instance of C10 at the counter-clockwise triangle. -/
theorem scan_upLowPt_assigned_witness :
    ∃ p, upLowPtOf triCCW = some p ∧ p.y < (upHiPtOf triCCW).y :=
  scan_upLowPt_assigned triCCW (by with_unfolding_all decide) (by decide)
    (by with_unfolding_all decide)
